import Mathlib

/-!
Shallow embedding of the multiplayer Tetris server (`src/server.js`) and
verification of its specification claims.

The embedding mirrors the source: fields are 20×10 grids of color strings
(`""` = empty cell, matching JS string truthiness), piece shapes are 0/1
matrices, and the JS `Math.random()` draws are passed in explicitly as
parameters (an index for a choice among `n` alternatives, a permutation for
the bag shuffle, a stream of difficulty draws for bot backfill).
-/

namespace TetrisServer

/-- The seven canonical piece types (`this.pieceTypes` in `CPUPlayer`). -/
inductive PieceType where
  | I | J | L | O | S | T | Z
deriving DecidableEq, Repr

open PieceType in
/-- `this.pieceTypes = ['I','J','L','O','S','T','Z']`. -/
def pieceTypes : List PieceType := [I, J, L, O, S, T, Z]

/-- `this.shapes` — the spawn orientation of each piece, 0/1 matrices. -/
def shapes : PieceType → List (List Nat)
  | .I => [[1,1,1,1]]
  | .J => [[1,0,0],[1,1,1]]
  | .L => [[0,0,1],[1,1,1]]
  | .O => [[1,1],[1,1]]
  | .S => [[0,1,1],[1,1,0]]
  | .T => [[0,1,0],[1,1,1]]
  | .Z => [[1,1,0],[0,1,1]]

/-- `this.colors` — the color string written into the field for each type. -/
def colors : PieceType → String
  | .I => "#0ff"
  | .J => "#00f"
  | .L => "#f80"
  | .O => "#ff0"
  | .S => "#0f0"
  | .T => "#a0f"
  | .Z => "#f00"

/-- One field row: 10 color strings, `""` meaning an empty cell. -/
abbrev Row := List String

/-- A field: 20 rows, row 0 at the top (pieces spawn at `y = 0` and fall by
increasing `y`; `clearLines` inserts fresh empty rows at index 0). -/
abbrev Field := List Row

/-- `Array(10).fill("")` — a fully empty row. -/
def emptyRow : Row := List.replicate 10 ""

/-- `Array.from({length: 20}, () => Array(10).fill(""))`. -/
def emptyField : Field := List.replicate 20 emptyRow

/-- JS truthiness of the cell `field[y][x]`: a non-empty color string. -/
def cellOccupied (field : Field) (y x : Int) : Bool :=
  decide (((field.getD y.toNat []).getD x.toNat "") ≠ "")

/-- `CPUPlayer.checkCollision(x, y, shape)` — true if some filled cell of
`shape` placed at `(x, y)` leaves the 10-wide/20-tall bounds or overlaps an
occupied cell; rows with negative `newY` are never collision sources. -/
def checkCollision (field : Field) (x y : Int) (shape : List (List Nat)) : Bool :=
  shape.enum.any fun rowPair =>
    rowPair.2.enum.any fun colPair =>
      decide (colPair.2 ≠ 0) &&
        (let newY : Int := y + rowPair.1
         let newX : Int := x + colPair.1
         if newX < 0 || 10 ≤ newX || 20 ≤ newY then true
         else if 0 ≤ newY then cellOccupied field newY newX
         else false)

/-- `CPUPlayer.rotateShape(shape)` — clockwise rotation:
`rotated[c][rows - 1 - r] = shape[r][c]`. -/
def rotateShape (shape : List (List Nat)) : List (List Nat) :=
  let rows := shape.length
  let cols := (shape.headD []).length
  (List.range cols).map fun c =>
    (List.range rows).map fun j => (shape.getD (rows - 1 - j) []).getD c 0

/-- `shape` rotated `n` times (the inner rotation loop of `findBestMove`). -/
def rotateN (n : Nat) (shape : List (List Nat)) : List (List Nat) :=
  Nat.rec shape (fun _ s => rotateShape s) n

/-- The simulated placement inside `evaluatePosition`: the piece's filled
cells are written into a copy of the field as the marker color `"X"`. -/
def simPlace (field : Field) (x y : Int) (shape : List (List Nat)) : Field :=
  shape.enum.foldl
    (fun f rowPair =>
      rowPair.2.enum.foldl
        (fun f2 colPair =>
          if colPair.2 ≠ 0 then
            let newY : Int := y + rowPair.1
            let newX : Int := x + colPair.1
            if 0 ≤ newY && newY < 20 && 0 ≤ newX && newX < 10 then
              f2.set newY.toNat ((f2.getD newY.toNat []).set newX.toNat "X")
            else f2
          else f2)
        f)
    field

/-- Hole count of `evaluatePosition`: empty cells below some occupied cell of
the same column, scanned over the 20×10 simulated board. -/
def countHoles (testField : Field) : Nat :=
  ((List.range 10).map fun col =>
    ((List.range 20).foldl
      (fun acc row =>
        let occupied := decide (((testField.getD row []).getD col "") ≠ "")
        if occupied then (acc.1 + 0, true)
        else if acc.2 then (acc.1 + 1, acc.2) else acc)
      ((0 : Nat), false)).1).sum

/-- Complete-line count of `evaluatePosition` on the simulated board. -/
def countCompleteLines (testField : Field) : Nat :=
  ((List.range 20).filter fun row =>
    (testField.getD row []).all fun cell => decide (cell ≠ "")).length

/-- `CPUPlayer.evaluatePosition(x, y, shape)` — heuristic score
`-10*y - 50*holes + 100*completeLines` on the simulated board. -/
def evaluatePosition (field : Field) (x y : Int) (shape : List (List Nat)) : Int :=
  let testField := simPlace field x y shape
  let score : Int :=
    -(y * 10) - (countHoles testField : Int) * 50 + (countCompleteLines testField : Int) * 100
  score

/-- The hard-drop loop of `findBestMove`: starting at `y`, descend while
`checkCollision(x, y+1, shape)` is false. The JS `while` loop terminates for
every real piece shape; the fuel only bounds the Lean recursion. -/
def hardDropY (field : Field) (x : Int) (shape : List (List Nat)) :
    Nat → Int → Option Int
  | 0, _ => none
  | fuel + 1, y =>
      if checkCollision field x (y + 1) shape then some y
      else hardDropY field x shape fuel (y + 1)

/-- A placement candidate returned by `findBestMove`: `{x, y, shape}`. -/
structure Move where
  x : Int
  y : Int
  shape : List (List Nat)
deriving DecidableEq, Repr

/-- The x positions tried by `findBestMove`: `for (let x = -2; x < 10; x++)`. -/
def candidateXs : List Int := [-2, -1, 0, 1, 2, 3, 4, 5, 6, 7, 8, 9]

/-- One iteration of `findBestMove`'s inner loop: hard-drop at `x`, skip the
position if it still collides, otherwise keep it when its evaluation beats
the best score so far (strict `>`; `bestScore` starts at `-Infinity`, modelled
by the accumulator starting at `none`). -/
def tryPosition (field : Field) (testShape : List (List Nat))
    (acc : Option (Int × Move)) (x : Int) : Option (Int × Move) :=
  match hardDropY field x testShape 25 0 with
  | none => acc
  | some y =>
      if checkCollision field x y testShape then acc
      else
        match acc with
        | none => some (evaluatePosition field x y testShape, ⟨x, y, testShape⟩)
        | some best =>
            if best.1 < evaluatePosition field x y testShape then
              some (evaluatePosition field x y testShape, ⟨x, y, testShape⟩)
            else some best

/-- `CPUPlayer.findBestMove()` — exhaustive search over 4 rotations × the x
range `[-2, 10)`, keeping the highest-scoring legal placement (ties keep the
first found, rotation-major then column-ascending). -/
def findBestMove (field : Field) (shape : List (List Nat)) : Option Move :=
  ((List.range 4).foldl
    (fun acc rotation =>
      let testShape := rotateN rotation shape
      candidateXs.foldl (fun a x => tryPosition field testShape a x) acc)
    none).map (·.2)

/-! ### Bag randomizer (`refillBag` / `getNextPiece`) -/

/-- `CPUPlayer.getNextPiece()` restricted to the piece type it draws:
if the bag is empty it is refilled first (`refillBag()` produces a shuffled
copy of `pieceTypes`, passed here as the explicit `shuffle` parameter), then
the last element is popped (`this.bag.pop()`). -/
def getNextPieceType (shuffle : List PieceType) (bag : List PieceType) :
    Option PieceType × List PieceType :=
  let b := if bag.isEmpty then shuffle else bag
  (b.getLast?, b.dropLast)

/-- The types produced by `n` consecutive `getNextPiece()` calls starting
from bag `bag`; every refill in the window uses the shuffle `shuffle`. -/
def drawTypes (shuffle : List PieceType) :
    Nat → List PieceType → List (Option PieceType) × List PieceType
  | 0, bag => ([], bag)
  | n + 1, bag =>
      let first := getNextPieceType shuffle bag
      let rest := drawTypes shuffle n first.2
      (first.1 :: rest.1, rest.2)

/-! ### `clearLines` -/

/-- `this.field[y].every(cell => cell !== "")` — the row is fully occupied. -/
def rowFull (r : Row) : Bool := r.all fun c => decide (c ≠ "")

/-- The row has at least one occupied cell. -/
def rowNonEmpty (r : Row) : Bool := r.any fun c => decide (c ≠ "")

/-- The `for (let y = 19; y >= 0; y--)` loop of `CPUPlayer.clearLines()`;
`y` here is the JS loop index plus one (so `y = 0` means the loop is done).
A full row at index `y - 1` is removed (`splice(y, 1)`) and an empty row is
prepended (`unshift`), after which the same index is re-examined (`y++` in
the loop body); otherwise the scan moves up one row. -/
def clearLoop (field : Field) (y : Nat) (cleared : Nat) : Field × Nat :=
  match y with
  | 0 => (field, cleared)
  | y' + 1 =>
      if h : y' < field.length then
        if hfull : rowFull field[y'] then
          clearLoop (emptyRow :: field.eraseIdx y') (y' + 1) (cleared + 1)
        else
          clearLoop field y' cleared
      else
        clearLoop field y' cleared
termination_by field.countP rowFull + y
decreasing_by
  · have hsplit : field = field.take y' ++ field[y'] :: field.drop (y' + 1) := by
      conv_lhs => rw [← List.take_append_drop y' field]
      rw [List.drop_eq_getElem_cons h]
    have herase : field.eraseIdx y' = field.take y' ++ field.drop (y' + 1) :=
      List.eraseIdx_eq_take_drop_succ field y'
    have hcount : field.countP rowFull
        = ((field.take y').countP rowFull + (field.drop (y' + 1)).countP rowFull) + 1 := by
      conv_lhs => rw [hsplit]
      rw [List.countP_append, List.countP_cons, hfull]
      simp
      omega
    have hcount2 : (emptyRow :: field.eraseIdx y').countP rowFull
        = (field.take y').countP rowFull + (field.drop (y' + 1)).countP rowFull := by
      rw [herase]
      rw [List.countP_cons, List.countP_append]
      have hemp : rowFull emptyRow = false := by decide
      rw [hemp]
      simp
    omega
  · omega
  · omega

/-- `CPUPlayer.clearLines()` — scans rows from index 19 down to 0 and returns
the updated field together with the number of lines cleared. -/
def clearLines (field : Field) : Field × Nat := clearLoop field 20 0

/-- The score update of `clearLines()`:
`if (linesCleared > 0) score += [0,100,300,500,800][linesCleared]`.
Indexing the table beyond 4 yields JS `undefined` (score becomes `NaN`),
modelled as `none`. -/
def clearLinesScore (score : Nat) (cleared : Nat) : Option Nat :=
  if cleared = 0 then some score
  else ([0, 100, 300, 500, 800].get? cleared).map (fun p => score + p)

/-! ### `receiveAttack` -/

/-- One garbage line: `Array(10).fill('#808080')` with a single random empty
cell at column `hole`. -/
def garbageRow (hole : Nat) : Row := (List.replicate 10 "#808080").set hole ""

/-- `CPUPlayer.receiveAttack(lines)` — one loop iteration per requested line
(the list `holes` carries the random hole column of each iteration):
`this.field.pop()` removes the **last** row (index 19, the bottom row), then
`this.field.push(garbageLine)` appends the garbage line at the bottom. -/
def receiveAttack (holes : List Nat) (field : Field) : Field :=
  holes.foldl (fun f hole => f.dropLast ++ [garbageRow hole]) field

/-- Modelled from the spec (the claimed behaviour of `receiveGarbage`):
"for each line: discard the topmost row, then append a new bottom row that is
solid except one uniformly random empty column". Used only to compare the
code's `receiveAttack` against the specified behaviour. -/
def specReceiveGarbage (holes : List Nat) (field : Field) : Field :=
  holes.foldl (fun f hole => f.tail ++ [garbageRow hole]) field

/-! ### Room data model -/

/-- Bot difficulty tiers. -/
inductive Difficulty where
  | easy | normal | hard
deriving DecidableEq, Repr

/-- The `difficulty.toUpperCase()` fragment of a generated CPU name. -/
def difficultyName : Difficulty → String
  | .easy => "EASY"
  | .normal => "NORMAL"
  | .hard => "HARD"

/-- A human player record as stored in `room.players` (a JS `Map` keyed by
id, modelled as an insertion-ordered list with unique ids). `wsOpen` models
`ws.readyState === WebSocket.OPEN`. -/
structure HumanPlayer where
  id : String
  name : String
  rank : String
  wsOpen : Bool
  score : Int
  linesCleared : Nat
  isAlive : Bool
  field : Field
deriving DecidableEq, Repr

/-- A `CPUPlayer` as stored in `room.cpuPlayers`; `running` models whether
`updateInterval` is an active timer. -/
structure BotPlayer where
  id : String
  name : String
  difficulty : Difficulty
  score : Int
  linesCleared : Nat
  isAlive : Bool
  running : Bool
  bag : List PieceType
  field : Field
deriving DecidableEq, Repr

/-- The projection used by `getAllPlayers` and `calculateRankings` (the
`rank` field of `getAllPlayers` is irrelevant to every claim and omitted). -/
structure RankedPlayer where
  id : String
  name : String
  score : Int
  isAlive : Bool
  isCPU : Bool
deriving DecidableEq, Repr

/-- The mutable state of a `Room`. `matchTimer` models whether the pending
match-start timer handle is non-null. -/
structure RoomState where
  id : String
  name : String
  password : Option String
  maxPlayers : Nat
  isQuickMatch : Bool
  rank : String
  players : List HumanPlayer
  cpuPlayers : List BotPlayer
  gameStarted : Bool
  gameEnded : Bool
  matchTimer : Bool
deriving DecidableEq, Repr

/-- Messages the room logic emits (via `broadcastToRoom` or a direct
`ws.send`), with the payload fields the claims are about. -/
inductive Broadcast where
  | gameStart (players : List RankedPlayer)
  | gameEnd (rankings : List RankedPlayer)
  | playerDied (playerId : String) (score : Int)
  | playerDisconnected (playerId : String)
  | attacked (fromPlayerId : String) (targetId : String) (lines : Nat)
deriving DecidableEq, Repr

/-- `CONFIG.CPU_FILL_ENABLED`. -/
def cpuFillEnabled : Bool := true

/-- `Room.getAllPlayers()` — the human records followed by the CPU records,
in map insertion order. -/
def getAllPlayers (s : RoomState) : List RankedPlayer :=
  s.players.map (fun p => ⟨p.id, p.name, p.score, p.isAlive, false⟩)
    ++ s.cpuPlayers.map (fun c => ⟨c.id, c.name, c.score, c.isAlive, true⟩)

/-! ### `calculateRankings` -/

/-- The sort comparator of `calculateRankings` as a boolean total preorder:
`rankLe a b` holds exactly when the JS comparator returns a value `≤ 0` on
`(a, b)` — i.e. `a` may stay before `b`. Alive players come first; equal
aliveness is ordered by descending score. -/
def rankLe (a b : RankedPlayer) : Bool :=
  if a.isAlive != b.isAlive then a.isAlive else decide (b.score ≤ a.score)

/-- Insert `a` (an element \x7boriginally earlier in the list\x7d) into the
already-sorted `l`, after every element that must come strictly before it and
before every element tied with it — the insertion step of a stable sort,
matching the stability guarantee of JS `Array.prototype.sort`. -/
def insertRanked (a : RankedPlayer) : List RankedPlayer → List RankedPlayer
  | [] => [a]
  | b :: l => if rankLe b a && !rankLe a b then b :: insertRanked a l else a :: b :: l

/-- Stable sort by `rankLe` (insertion sort, which is stable), modelling the
ES2019-stable `allPlayers.sort(...)` of `calculateRankings`. -/
def stableSortRanked : List RankedPlayer → List RankedPlayer
  | [] => []
  | a :: l => insertRanked a (stableSortRanked l)

/-- `Room.calculateRankings()` — humans then CPUs, stably sorted with alive
players before dead ones and descending score within equal aliveness. -/
def calculateRankings (humans cpus : List RankedPlayer) : List RankedPlayer :=
  stableSortRanked (humans ++ cpus)

/-- `calculateRankings` applied to a room's current members. -/
def roomRankings (s : RoomState) : List RankedPlayer :=
  calculateRankings
    (s.players.map (fun p => ⟨p.id, p.name, p.score, p.isAlive, false⟩))
    (s.cpuPlayers.map (fun c => ⟨c.id, c.name, c.score, c.isAlive, true⟩))

/-! ### Room lifecycle -/

/-- `Room.addCPU(difficulty)` — a fresh `CPUPlayer`: score 0, alive, empty
field, no timer running (the random name suffix and timestamp id are
abstracted into the caller-chosen `id`). -/
def newCPU (id : String) (difficulty : Difficulty) : BotPlayer :=
  { id := id
    name := "CPU-" ++ difficultyName difficulty
    difficulty := difficulty
    score := 0
    linesCleared := 0
    isAlive := true
    running := false
    bag := []
    field := emptyField }

/-- The target-population table of the CPU-backfill block of
`Room.startGame()`: `let targetTotal = 50; if (currentPlayers <= 2)
targetTotal = 80; else if (currentPlayers <= 5) targetTotal = 60;`. -/
def targetTotal (currentPlayers : Nat) : Nat :=
  if currentPlayers ≤ 2 then 80 else if currentPlayers ≤ 5 then 60 else 50

/-- The CPU-backfill block of `Room.startGame()`: from the current headcount
compute the target total via `targetTotal` and add `target - headcount` CPUs
when that difference is positive. `chooseDiff i` stands for
the i-th `Math.random()` difficulty draw against the rank's distribution,
`newId i` for the i-th generated CPU id. -/
def backfillCPUs (chooseDiff : Nat → Difficulty) (newId : Nat → String)
    (s : RoomState) : RoomState :=
  let currentPlayers := s.players.length + s.cpuPlayers.length
  let needed : Int := (targetTotal currentPlayers : Int) - (currentPlayers : Int)
  if 0 < needed then
    { s with cpuPlayers :=
        s.cpuPlayers ++ (List.range needed.toNat).map fun i => newCPU (newId i) (chooseDiff i) }
  else s

/-- `Room.startGame()` — no-op if the game already started; otherwise cancel
the match timer, backfill CPUs (quick matches only), set
`gameStarted = true` / `gameEnded = false`, start every CPU's tick timer and
broadcast `gameStart` with the full roster. -/
def startGame (chooseDiff : Nat → Difficulty) (newId : Nat → String)
    (s : RoomState) : RoomState × List Broadcast :=
  if s.gameStarted then (s, [])
  else
    let s1 := { s with matchTimer := false }
    let s2 := if cpuFillEnabled && s1.isQuickMatch then backfillCPUs chooseDiff newId s1 else s1
    let s3 := { s2 with gameStarted := true, gameEnded := false }
    let allPlayers := getAllPlayers s3
    let s4 := { s3 with cpuPlayers := s3.cpuPlayers.map fun c => { c with running := true } }
    (s4, [Broadcast.gameStart allPlayers])

/-- `Room.endGame()` — no-op if the game already ended; otherwise set
`gameEnded = true` / `gameStarted = false`, stop every CPU timer and
broadcast the final rankings. -/
def endGame (s : RoomState) : RoomState × List Broadcast :=
  if s.gameEnded then (s, [])
  else
    let s1 := { s with gameEnded := true, gameStarted := false }
    let s2 := { s1 with cpuPlayers := s1.cpuPlayers.map fun c => { c with running := false } }
    (s2, [Broadcast.gameEnd (roomRankings s2)])

/-- `checkGameEnd(room)` — if the game has not already ended and at most one
member (human or CPU) is still alive, end the game. -/
def checkGameEnd (s : RoomState) : RoomState × List Broadcast :=
  if s.gameEnded then (s, [])
  else if ((getAllPlayers s).filter (·.isAlive)).length ≤ 1 then endGame s
  else (s, [])

/-- `handleGameOver` restricted to its effect on the player's room: mark the
sender's record dead, record the reported score, broadcast `playerDied`, and
re-run the end-of-game check. -/
def handleGameOverRoom (pid : String) (score : Int) (s : RoomState) :
    RoomState × List Broadcast :=
  let markDead := fun (p : HumanPlayer) =>
    if p.id = pid then { p with isAlive := false, score := score } else p
  let s1 := { s with players := s.players.map markDead }
  let c := checkGameEnd s1
  (c.1, Broadcast.playerDied pid score :: c.2)

/-- `Room.removePlayer(playerId)` — delete the id from the human map, and
from the CPU map (stopping its timer first) if it is a CPU id. -/
def removePlayerRoom (pid : String) (s : RoomState) : RoomState :=
  { s with players := s.players.filter (fun p => p.id ≠ pid),
           cpuPlayers := s.cpuPlayers.filter (fun c => c.id ≠ pid) }

/-- The room-level effect of the `ws.on('close')` handler for a client in
this room: remove the player, broadcast `playerDisconnected`, re-run the
end-of-game check only if a game is in progress, and tear the room down
(stopping all CPU timers) when no human remains. The final `Bool` reports
whether the room was deleted from the registry. -/
def disconnectRoom (pid : String) (s : RoomState) :
    RoomState × List Broadcast × Bool :=
  let s1 := removePlayerRoom pid s
  let afterCheck := if s1.gameStarted then checkGameEnd s1 else (s1, [])
  let s2 := afterCheck.1
  let deleted := s2.players.isEmpty
  let s3 :=
    if deleted then { s2 with cpuPlayers := s2.cpuPlayers.map fun c => { c with running := false } }
    else s2
  (s3, Broadcast.playerDisconnected pid :: afterCheck.2, deleted)

/-! ### `sendAttack` -/

/-- Placeholder record used only as the `getD` default below; the index is
always in bounds, so it is never returned. -/
def dummyHuman : HumanPlayer :=
  { id := "", name := "", rank := "", wsOpen := false
    score := 0, linesCleared := 0, isAlive := false, field := [] }

/-- `CPUPlayer.sendAttack(room)` — `lines` is `Math.floor(Math.random()*3)+1`
(the draw passed as `randLines`), and the target is chosen by a uniform index
into `Array.from(room.players.values()).filter(p => p.isAlive)` — the living
**human** players (`room.players` holds only humans; CPUs live in
`room.cpuPlayers`). The message is sent only when the target's socket is
open. Returns the emitted `attacked` event, if any. -/
def sendAttackRoom (attackerId : String) (randLines randTarget : Nat)
    (s : RoomState) : Option Broadcast :=
  let lines := randLines % 3 + 1
  let alivePlayers := s.players.filter (·.isAlive)
  if alivePlayers.isEmpty then none
  else
    let target := alivePlayers.getD (randTarget % alivePlayers.length) dummyHuman
    if target.wsOpen then some (Broadcast.attacked attackerId target.id lines) else none

/-- Modelled from the spec (claim C5's wording): the target population is
"all living players of the room, both human and bot, excluding the attacking
bot itself". Used only to compare `sendAttackRoom` against the claim. -/
def specClaimTargets (attackerId : String) (s : RoomState) : List RankedPlayer :=
  (getAllPlayers s).filter fun p => p.isAlive && p.id != attackerId

/-! ## Theorems -/

/-- The invariant carried through `findBestMove`'s search: every candidate
stored in the accumulator is collision-free at its resting position. -/
def LegalAcc (field : Field) (acc : Option (Int × Move)) : Prop :=
  ∀ p : Int × Move, acc = some p → checkCollision field p.2.x p.2.y p.2.shape = false

theorem legalAcc_none (field : Field) : LegalAcc field none := by
  intro p hp
  exact absurd hp (by simp)

theorem tryPosition_legal (field : Field) (testShape : List (List Nat))
    (acc : Option (Int × Move)) (x : Int) (hacc : LegalAcc field acc) :
    LegalAcc field (tryPosition field testShape acc x) := by
  intro p hp
  unfold tryPosition at hp
  split at hp
  · exact hacc p hp
  · rename_i y hdrop
    split at hp
    · exact hacc p hp
    · rename_i hcol
      split at hp
      · cases hp
        simpa using hcol
      · split at hp
        · cases hp
          simpa using hcol
        · cases hp
          exact hacc _ rfl

theorem foldl_tryPosition_legal (field : Field) (testShape : List (List Nat))
    (xs : List Int) (acc : Option (Int × Move)) (hacc : LegalAcc field acc) :
    LegalAcc field (xs.foldl (fun a x => tryPosition field testShape a x) acc) := by
  induction xs generalizing acc with
  | nil => exact hacc
  | cons x xs ih => exact ih _ (tryPosition_legal field testShape acc x hacc)

theorem foldl_rotations_legal (field : Field) (shape : List (List Nat))
    (rs : List Nat) (acc : Option (Int × Move)) (hacc : LegalAcc field acc) :
    LegalAcc field (rs.foldl
      (fun acc rotation =>
        candidateXs.foldl (fun a x => tryPosition field (rotateN rotation shape) a x) acc)
      acc) := by
  induction rs generalizing acc with
  | nil => exact hacc
  | cons r rs ih => exact ih _ (foldl_tryPosition_legal field _ candidateXs acc hacc)

/-- C2: whenever `findBestMove` returns a move `{x, y, shape}`, that resting
position is a legal placement: `checkCollision(x, y, shape)` is false on the
bot's current field. -/
theorem findBestMove_no_collision (field : Field) (shape : List (List Nat)) (m : Move)
    (h : findBestMove field shape = some m) :
    checkCollision field m.x m.y m.shape = false := by
  unfold findBestMove at h
  set folded := (List.range 4).foldl
    (fun acc rotation =>
      let testShape := rotateN rotation shape
      candidateXs.foldl (fun a x => tryPosition field testShape a x) acc)
    none with hfolded
  have hleg : LegalAcc field folded := by
    rw [hfolded]
    exact foldl_rotations_legal field shape (List.range 4) none (legalAcc_none field)
  cases hf : folded with
  | none => rw [hf] at h; exact absurd h (by simp)
  | some p =>
      rw [hf] at h
      simp only [Option.map_some'] at h
      cases h
      exact hleg p hf

set_option maxRecDepth 8000 in
/-- Witness for C2: on the empty field with the O piece, `findBestMove`
returns the placement `(0, 18)`, and the theorem instantiates to a
collision-free check there. -/
theorem findBestMove_no_collision_witness :
    checkCollision emptyField 0 18 [[1, 1], [1, 1]] = false :=
  findBestMove_no_collision emptyField (shapes PieceType.O) ⟨0, 18, [[1, 1], [1, 1]]⟩ (by rfl)

theorem drawTypes_succ (sh : List PieceType) (n : Nat) (bag : List PieceType) :
    drawTypes sh (n + 1) bag =
      ((getNextPieceType sh bag).1 :: (drawTypes sh n (getNextPieceType sh bag).2).1,
       (drawTypes sh n (getNextPieceType sh bag).2).2) := rfl

theorem getNextPieceType_concat (sh l : List PieceType) (a : PieceType) :
    getNextPieceType sh (l ++ [a]) = (some a, l) := by
  unfold getNextPieceType
  simp

theorem getNextPieceType_empty_concat (l : List PieceType) (a : PieceType) :
    getNextPieceType (l ++ [a]) [] = (some a, l) := by
  unfold getNextPieceType
  simp

/-- Draining a bag of `bag.length` pieces pops it from the back, producing
`bag.reverse` without triggering any refill. -/
theorem drawTypes_drain (sh : List PieceType) (bag : List PieceType) :
    drawTypes sh bag.length bag = (bag.reverse.map some, []) := by
  induction bag using List.reverseRecOn with
  | nil => rfl
  | append_singleton l a ih =>
      rw [show (l ++ [a]).length = l.length + 1 by simp, drawTypes_succ,
        getNextPieceType_concat]
      show (some a :: (drawTypes sh l.length l).1, (drawTypes sh l.length l).2)
        = ((l ++ [a]).reverse.map some, [])
      rw [ih]
      simp

/-- A nonempty shuffled bag installed on the first draw from an empty bag is
then drained back-to-front: the window of `sh.length` draws is `sh.reverse`. -/
theorem drawTypes_refill (sh : List PieceType) (hne : sh ≠ []) :
    drawTypes sh sh.length [] = (sh.reverse.map some, []) := by
  induction sh using List.reverseRecOn with
  | nil => exact absurd rfl hne
  | append_singleton l a _ =>
      rw [show (l ++ [a]).length = l.length + 1 by simp, drawTypes_succ,
        getNextPieceType_empty_concat]
      show (some a :: (drawTypes (l ++ [a]) l.length l).1, (drawTypes (l ++ [a]) l.length l).2)
        = ((l ++ [a]).reverse.map some, [])
      rw [drawTypes_drain (l ++ [a]) l]
      simp

/-- C3: in a window of 7 consecutive `getNextPiece()` draws starting from an
empty bag, whatever permutation `refillBag()` produced, exactly 7 types are
drawn and each of the 7 piece types appears exactly once. -/
theorem sevenBag (sh : List PieceType) (hperm : sh.Perm pieceTypes) (t : PieceType) :
    ((drawTypes sh 7 []).1).length = 7 ∧ ((drawTypes sh 7 []).1).count (some t) = 1 := by
  have hlen : sh.length = 7 := hperm.length_eq
  have hne : sh ≠ [] := by
    intro hnil
    rw [hnil] at hlen
    exact absurd hlen (by decide)
  have hdraw : drawTypes sh 7 [] = (sh.reverse.map some, []) := by
    rw [← hlen]
    exact drawTypes_refill sh hne
  rw [hdraw]
  constructor
  · simp [hlen]
  · show (sh.reverse.map some).count (some t) = 1
    have hmapcount : ∀ L : List PieceType, (L.map some).count (some t) = L.count t := by
      intro L
      induction L with
      | nil => rfl
      | cons a L ih => simp [List.count_cons, ih]
    rw [hmapcount, List.count_reverse, hperm.count_eq]
    cases t <;> rfl

/-- Witness for C3: the identity permutation of the bag (`refillBag`
returning the canonical order) draws the T piece exactly once in 7 calls. -/
theorem sevenBag_witness :
    ((drawTypes pieceTypes 7 []).1).length = 7 ∧
      ((drawTypes pieceTypes 7 []).1).count (some PieceType.T) = 1 :=
  sevenBag pieceTypes (List.Perm.refl pieceTypes) PieceType.T

theorem clearLoop_zero (field : Field) (cleared : Nat) :
    clearLoop field 0 cleared = (field, cleared) := by
  rw [clearLoop]

theorem clearLoop_succ_full (field : Field) (y' cleared : Nat) (h : y' < field.length)
    (hfull : rowFull field[y'] = true) :
    clearLoop field (y' + 1) cleared
      = clearLoop (emptyRow :: field.eraseIdx y') (y' + 1) (cleared + 1) := by
  rw [clearLoop]
  rw [dif_pos h, dif_pos hfull]

theorem clearLoop_succ_notfull (field : Field) (y' cleared : Nat) (h : y' < field.length)
    (hfull : ¬rowFull field[y'] = true) :
    clearLoop field (y' + 1) cleared = clearLoop field y' cleared := by
  rw [clearLoop]
  rw [dif_pos h, dif_neg hfull]

/-- Characterization of the `clearLines` scan: once every row at or below the
scan index is known non-full, the loop removes exactly the full rows,
prepends one empty row per removal, and adds the number of removals to the
running count. -/
theorem clearLoop_spec :
    ∀ (field : Field) (y cleared : Nat), y ≤ field.length →
      (∀ r ∈ field.drop y, rowFull r = false) →
      clearLoop field y cleared =
        (List.replicate (field.countP rowFull) emptyRow
           ++ field.filter (fun r => !rowFull r),
         cleared + field.countP rowFull) := by
  intro field y cleared
  induction field, y, cleared using clearLoop.induct with
  | case1 field cleared =>
      intro _ hproc
      rw [List.drop_zero] at hproc
      have hcount : field.countP rowFull = 0 := by
        rw [List.countP_eq_zero]
        intro a ha
        simp [hproc a ha]
      have hfilter : field.filter (fun r => !rowFull r) = field := by
        rw [List.filter_eq_self]
        intro a ha
        simp [hproc a ha]
      rw [clearLoop_zero, hcount, hfilter]
      simp
  | case2 field cleared y' h hfull ih =>
      intro hy hproc
      have htake : (field.take y').length = y' := by
        rw [List.length_take]
        omega
      have herase : field.eraseIdx y' = field.take y' ++ field.drop (y' + 1) :=
        List.eraseIdx_eq_take_drop_succ field y'
      have hsplit : field = field.take y' ++ field[y'] :: field.drop (y' + 1) := by
        conv_lhs => rw [← List.take_append_drop y' field]
        rw [List.drop_eq_getElem_cons h]
      have hdrop_new : (emptyRow :: field.eraseIdx y').drop (y' + 1) = field.drop (y' + 1) := by
        rw [List.drop_succ_cons, herase, List.drop_left' htake]
      have hcount : field.countP rowFull
          = ((field.take y').countP rowFull + (field.drop (y' + 1)).countP rowFull) + 1 := by
        conv_lhs => rw [hsplit]
        rw [List.countP_append, List.countP_cons, hfull]
        simp
        omega
      have hcount_new : (emptyRow :: field.eraseIdx y').countP rowFull
          = (field.take y').countP rowFull + (field.drop (y' + 1)).countP rowFull := by
        rw [herase, List.countP_cons, List.countP_append]
        have hemp : rowFull emptyRow = false := by decide
        rw [hemp]
        simp
      have hfilter : field.filter (fun r => !rowFull r)
          = (field.take y').filter (fun r => !rowFull r)
            ++ (field.drop (y' + 1)).filter (fun r => !rowFull r) := by
        conv_lhs => rw [hsplit]
        rw [List.filter_append, List.filter_cons]
        rw [show (!rowFull field[y']) = false by rw [hfull]; rfl]
        simp
      have hfilter_new : (emptyRow :: field.eraseIdx y').filter (fun r => !rowFull r)
          = emptyRow :: ((field.take y').filter (fun r => !rowFull r)
              ++ (field.drop (y' + 1)).filter (fun r => !rowFull r)) := by
        rw [List.filter_cons, herase, List.filter_append]
        have hemp : (!rowFull emptyRow) = true := by decide
        rw [hemp]
        simp
      have hy_new : y' + 1 ≤ (emptyRow :: field.eraseIdx y').length := by
        have : (field.eraseIdx y').length = field.length - 1 := by
          rw [List.length_eraseIdx]
          simp [h]
        simp [this]
        omega
      have hproc_new : ∀ r ∈ (emptyRow :: field.eraseIdx y').drop (y' + 1), rowFull r = false := by
        rw [hdrop_new]
        exact hproc
      rw [clearLoop_succ_full field y' cleared h hfull, ih hy_new hproc_new]
      rw [hcount_new, hcount, hfilter, hfilter_new]
      simp only [Prod.mk.injEq]
      constructor
      · rw [List.replicate_succ']
        rw [List.append_assoc, List.singleton_append]
      · omega
  | case3 field cleared y' h hfull ih =>
      intro hy hproc
      rw [clearLoop_succ_notfull field y' cleared h hfull]
      apply ih
      · omega
      · intro r hr
        rw [List.drop_eq_getElem_cons h] at hr
        rcases List.mem_cons.mp hr with hr1 | hr2
        · rw [hr1]
          exact Bool.not_eq_true _ ▸ (by simpa using hfull)
        · exact hproc r hr2
  | case4 field cleared y' hnh ih =>
      intro hy hproc
      exact absurd (Nat.lt_of_succ_le hy) hnh

/-- C4: on a 20×10 field, `clearLines()` removes exactly the fully occupied
rows, inserts one empty row at the top per removal, and returns the removal
count; the field stays 20 rows of length 10, the number of non-empty rows
does not increase, and for 0–4 cleared lines the score grows by the table
entry `[0, 100, 300, 500, 800]`. -/
theorem clearLines_spec (field : Field) (h20 : field.length = 20)
    (h10 : ∀ r ∈ field, r.length = 10) :
    clearLines field =
      (List.replicate (field.countP rowFull) emptyRow
         ++ field.filter (fun r => !rowFull r),
       field.countP rowFull)
    ∧ (clearLines field).1.length = 20
    ∧ (∀ r ∈ (clearLines field).1, r.length = 10)
    ∧ (clearLines field).1.countP rowNonEmpty ≤ field.countP rowNonEmpty
    ∧ (∀ score : Nat, (clearLines field).2 ≤ 4 →
        clearLinesScore score (clearLines field).2
          = some (score + [0, 100, 300, 500, 800].getD (clearLines field).2 0)) := by
  have hmain : clearLines field =
      (List.replicate (field.countP rowFull) emptyRow
         ++ field.filter (fun r => !rowFull r),
       field.countP rowFull) := by
    unfold clearLines
    rw [clearLoop_spec field 20 0 (by omega)
      (by rw [List.drop_eq_nil_of_le (by omega)]; intro r hr; cases hr)]
    simp
  have hcle : field.countP rowFull + (field.filter (fun r => !rowFull r)).length
      = field.length := by
    rw [← List.countP_eq_length_filter]
    have hsum := List.length_eq_countP_add_countP (p := rowFull) (l := field)
    have hco : (fun a => decide ¬(rowFull a = true)) = (fun r => !rowFull r) := by
      funext a
      cases hra : rowFull a <;> simp [hra]
    rw [hco] at hsum
    omega
  refine ⟨hmain, ?_, ?_, ?_, ?_⟩
  · rw [hmain]
    simp only [List.length_append, List.length_replicate]
    omega
  · rw [hmain]
    intro r hr
    rcases List.mem_append.mp hr with hrep | hfil
    · rw [List.eq_of_mem_replicate hrep]
      rfl
    · exact h10 r (List.mem_of_mem_filter hfil)
  · rw [hmain]
    simp only [List.countP_append]
    have hrep0 : (List.replicate (field.countP rowFull) emptyRow).countP rowNonEmpty = 0 := by
      rw [List.countP_eq_zero]
      intro a ha
      rw [List.eq_of_mem_replicate ha]
      decide
    rw [hrep0]
    have hsub : (field.filter (fun r => !rowFull r)).countP rowNonEmpty
        ≤ field.countP rowNonEmpty :=
      (List.filter_sublist field).countP_le rowNonEmpty
    omega
  · intro score hk
    rcases hk4 : (clearLines field).2 with _ | _ | _ | _ | k
    · simp [clearLinesScore]
    · simp [clearLinesScore]
    · simp [clearLinesScore]
    · simp [clearLinesScore]
    · rw [hk4] at hk
      have hk0 : k = 0 := by omega
      subst hk0
      simp [clearLinesScore]

/-- A concrete 20×10 field with two full rows (indices 17 and 19), used to
instantiate the `clearLines` theorem. -/
def exampleField : Field :=
  List.replicate 17 emptyRow
    ++ [List.replicate 10 "#0ff", emptyRow, List.replicate 10 "#f00"]

/-- Witness for C4: the `clearLines` characterization instantiated at a
concrete field with exactly two full rows. -/
theorem clearLines_spec_witness :
    clearLines exampleField =
      (List.replicate (exampleField.countP rowFull) emptyRow
         ++ exampleField.filter (fun r => !rowFull r),
       exampleField.countP rowFull)
    ∧ clearLinesScore 100 (clearLines exampleField).2 = some 400 := by
  have h := clearLines_spec exampleField (by rfl) (by decide)
  refine ⟨h.1, ?_⟩
  have hs := h.2.2.2.2 100 (by rw [h.1]; decide)
  rw [hs, h.1]
  decide



/-- Key of the comparator: the pair (aliveness, score). -/
def keyMatch (alv : Bool) (sc : Int) (x : RankedPlayer) : Bool :=
  (x.isAlive == alv) && (x.score == sc)

theorem rankLe_total (a b : RankedPlayer) : rankLe a b = true ∨ rankLe b a = true := by
  unfold rankLe
  rcases ha : a.isAlive <;> rcases hb : b.isAlive <;> simp [ha, hb] <;> omega

theorem rankLe_trans {a b c : RankedPlayer} (hab : rankLe a b = true)
    (hbc : rankLe b c = true) : rankLe a c = true := by
  unfold rankLe at *
  rcases ha : a.isAlive <;> rcases hb : b.isAlive <;> rcases hc : c.isAlive <;>
    simp [ha, hb, hc] at * <;> omega

theorem keyMatch_rankLe_both {alv : Bool} {sc : Int} {a b : RankedPlayer}
    (hpa : keyMatch alv sc a = true) (hpb : keyMatch alv sc b = true) :
    rankLe a b = true ∧ rankLe b a = true := by
  unfold keyMatch at *
  unfold rankLe
  simp at hpa hpb
  simp [hpa.1, hpa.2, hpb.1, hpb.2]

theorem insertRanked_perm (a : RankedPlayer) (l : List RankedPlayer) :
    (insertRanked a l).Perm (a :: l) := by
  induction l with
  | nil => exact List.Perm.refl _
  | cons b l ih =>
      unfold insertRanked
      split
      · exact ((ih.cons b).trans (List.Perm.swap a b l))
      · exact List.Perm.refl _

theorem stableSortRanked_perm (l : List RankedPlayer) :
    (stableSortRanked l).Perm l := by
  induction l with
  | nil => exact List.Perm.refl _
  | cons a l ih => exact (insertRanked_perm a (stableSortRanked l)).trans (ih.cons a)

theorem mem_insertRanked {x a : RankedPlayer} {l : List RankedPlayer} :
    x ∈ insertRanked a l ↔ x = a ∨ x ∈ l := by
  rw [(insertRanked_perm a l).mem_iff, List.mem_cons]

theorem insertRanked_sorted (a : RankedPlayer) (l : List RankedPlayer)
    (hl : l.Pairwise (fun x y => rankLe x y = true)) :
    (insertRanked a l).Pairwise (fun x y => rankLe x y = true) := by
  induction l with
  | nil => simp [insertRanked]
  | cons b l ih =>
      rw [List.pairwise_cons] at hl
      obtain ⟨hb, hl'⟩ := hl
      unfold insertRanked
      split
      · rename_i hlt
        rw [List.pairwise_cons]
        refine ⟨?_, ih hl'⟩
        intro y hy
        rcases mem_insertRanked.mp hy with rfl | hyl
        · exact (Bool.and_eq_true _ _ ▸ hlt).1
        · exact hb y hyl
      · rename_i hnlt
        have hab : rankLe a b = true := by
          rcases rankLe_total a b with h | h
          · exact h
          · by_contra hfalse
            apply hnlt
            simp [h, hfalse]
        rw [List.pairwise_cons]
        refine ⟨?_, List.pairwise_cons.mpr ⟨hb, hl'⟩⟩
        intro y hy
        rcases List.mem_cons.mp hy with rfl | hyl
        · exact hab
        · exact rankLe_trans hab (hb y hyl)

theorem stableSortRanked_sorted (l : List RankedPlayer) :
    (stableSortRanked l).Pairwise (fun x y => rankLe x y = true) := by
  induction l with
  | nil => simp [stableSortRanked]
  | cons a l ih => exact insertRanked_sorted a (stableSortRanked l) ih

theorem filter_insertRanked (alv : Bool) (sc : Int) (a : RankedPlayer)
    (l : List RankedPlayer) :
    (insertRanked a l).filter (keyMatch alv sc)
      = if keyMatch alv sc a then a :: l.filter (keyMatch alv sc)
        else l.filter (keyMatch alv sc) := by
  induction l with
  | nil =>
      rw [show insertRanked a [] = [a] from rfl, List.filter_cons]
  | cons b l ih =>
      unfold insertRanked
      split
      · rename_i hlt
        rw [List.filter_cons, ih]
        by_cases hpa : keyMatch alv sc a = true
        · have hpb : keyMatch alv sc b = false := by
            cases hvb : keyMatch alv sc b
            · rfl
            · obtain ⟨h1, h2⟩ := keyMatch_rankLe_both hvb hpa
              rw [Bool.and_eq_true] at hlt
              have hlt2 := hlt.2
              rw [h2] at hlt2
              simp at hlt2
          simp [hpa, hpb, List.filter_cons]
        · rw [Bool.not_eq_true] at hpa
          simp [hpa, List.filter_cons]
      · rw [List.filter_cons]

theorem filter_stableSortRanked (alv : Bool) (sc : Int) (l : List RankedPlayer) :
    (stableSortRanked l).filter (keyMatch alv sc) = l.filter (keyMatch alv sc) := by
  induction l with
  | nil => rfl
  | cons a l ih =>
      show (insertRanked a (stableSortRanked l)).filter (keyMatch alv sc) = _
      rw [filter_insertRanked, ih, List.filter_cons]

/-- Example player A of the rankings scenario: alive, score 50. -/
def playerA : RankedPlayer := ⟨"A", "Alice", 50, true, false⟩

/-- Example player B of the rankings scenario: dead, score 900. -/
def playerB : RankedPlayer := ⟨"B", "Bob", 900, false, false⟩

/-- Example player C of the rankings scenario: alive, score 10. -/
def playerC : RankedPlayer := ⟨"C", "Cara", 10, true, false⟩

/-- C8: `calculateRankings` returns the full member list (a permutation of
humans followed by CPUs), ordered so that every alive player precedes every
dead player and equal aliveness is ordered by descending score; members with
equal (aliveness, score) keep their original relative order; and on the
scenario {A(alive, 50), B(dead, 900), C(alive, 10)} the result is [A, C, B]. -/
theorem calculateRankings_spec (humans cpus : List RankedPlayer) :
    (calculateRankings humans cpus).Perm (humans ++ cpus)
    ∧ (calculateRankings humans cpus).Pairwise (fun a b => rankLe a b = true)
    ∧ (∀ (alv : Bool) (sc : Int),
        (calculateRankings humans cpus).filter (keyMatch alv sc)
          = (humans ++ cpus).filter (keyMatch alv sc))
    ∧ calculateRankings [playerA, playerB, playerC] [] = [playerA, playerC, playerB] :=
  ⟨stableSortRanked_perm _, stableSortRanked_sorted _,
   fun alv sc => filter_stableSortRanked alv sc _, by decide⟩


/-! ### Room lifecycle theorems -/

theorem startGame_gameStarted (d : Nat → Difficulty) (n : Nat → String) (s : RoomState) :
    (startGame d n s).1.gameStarted = true := by
  unfold startGame
  split
  · rename_i hs
    simpa using hs
  · simp

theorem endGame_gameEnded (s : RoomState) : (endGame s).1.gameEnded = true := by
  unfold endGame
  split
  · rename_i hs
    simpa using hs
  · simp

/-- What one `startGame()` call does to a room that has not started yet:
human membership is untouched, the game flags flip to started/not-ended, a
`gameStart` broadcast is emitted, and on a quick match the CPU roster grows
by exactly `targetTotal(headcount) - headcount` (truncated at zero). -/
theorem startGame_run (s : RoomState) (d : Nat → Difficulty) (n : Nat → String)
    (hstart : s.gameStarted = false) :
    (startGame d n s).1.players = s.players
    ∧ (startGame d n s).1.gameStarted = true
    ∧ (startGame d n s).1.gameEnded = false
    ∧ (startGame d n s).2 ≠ []
    ∧ (s.isQuickMatch = true →
        (startGame d n s).1.cpuPlayers.length
          = s.cpuPlayers.length
            + (targetTotal (s.players.length + s.cpuPlayers.length)
               - (s.players.length + s.cpuPlayers.length))) := by
  unfold startGame
  rw [if_neg (by simp [hstart])]
  refine ⟨?_, ?_, ?_, ?_, ?_⟩
  · simp [backfillCPUs, apply_ite (fun st : RoomState => st.players)]
  · simp
  · simp
  · simp
  · intro hqm
    unfold backfillCPUs
    simp only [cpuFillEnabled, hqm, Bool.and_self, if_pos]
    by_cases hpos : (0 : Int)
        < (targetTotal (s.players.length + s.cpuPlayers.length) : Int)
          - ((s.players.length + s.cpuPlayers.length : Nat) : Int)
    · rw [if_pos hpos]
      simp
      omega
    · rw [if_neg hpos]
      simp
      omega

/-- C6: `startGame()` and `endGame()` are idempotent — a second call in
succession leaves the room state unchanged and broadcasts nothing, so two
calls have the same observable effect as one. -/
theorem startGame_endGame_idempotent (s : RoomState)
    (d1 d2 : Nat → Difficulty) (n1 n2 : Nat → String) :
    startGame d2 n2 (startGame d1 n1 s).1 = ((startGame d1 n1 s).1, [])
    ∧ endGame (endGame s).1 = ((endGame s).1, []) := by
  constructor
  · rw [startGame]
    rw [if_pos (startGame_gameStarted d1 n1 s)]
  · rw [endGame]
    rw [if_pos (endGame_gameEnded s)]

/-- C7: on a quick-match room entering `startGame()`, the target total is
taken from the 80/60/50 table on the current human+CPU headcount and exactly
`target - headcount` CPU players are added when that is positive; with 2
humans and no CPUs the room ends up with exactly 80 members. -/
theorem startGame_backfill (s : RoomState) (d : Nat → Difficulty) (n : Nat → String)
    (hstart : s.gameStarted = false) (hqm : s.isQuickMatch = true) :
    (startGame d n s).1.players = s.players
    ∧ (startGame d n s).1.cpuPlayers.length
        = s.cpuPlayers.length
          + (targetTotal (s.players.length + s.cpuPlayers.length)
             - (s.players.length + s.cpuPlayers.length))
    ∧ (s.players.length = 2 → s.cpuPlayers.length = 0 →
        (startGame d n s).1.players.length + (startGame d n s).1.cpuPlayers.length = 80) := by
  obtain ⟨hp, _, _, _, hcount⟩ := startGame_run s d n hstart
  refine ⟨hp, hcount hqm, ?_⟩
  intro h2 h0
  rw [hp, hcount hqm, h2, h0]
  rfl

/-- C10: ENDED is not terminal — on a room with `gameEnded = true` and
`gameStarted = false`, `startGame()` is not a no-op: it flips the room back
to started/not-ended, broadcasts `gameStart`, changes the state, and on a
quick match re-runs the CPU backfill table. -/
theorem endedRoom_restartable (s : RoomState) (d : Nat → Difficulty) (n : Nat → String)
    (hended : s.gameEnded = true) (hstopped : s.gameStarted = false) :
    (startGame d n s).1.gameStarted = true
    ∧ (startGame d n s).1.gameEnded = false
    ∧ (startGame d n s).2 ≠ []
    ∧ (startGame d n s).1 ≠ s
    ∧ (s.isQuickMatch = true →
        (startGame d n s).1.cpuPlayers.length
          = s.cpuPlayers.length
            + (targetTotal (s.players.length + s.cpuPlayers.length)
               - (s.players.length + s.cpuPlayers.length))) := by
  obtain ⟨_, hs1, hs2, hb, hcount⟩ := startGame_run s d n hstopped
  refine ⟨hs1, hs2, hb, ?_, hcount⟩
  intro heq
  rw [heq] at hs2
  rw [hended] at hs2
  cases hs2

/-- A quick-match room with two connected humans, no CPUs, game not yet
started: the concrete input of the backfill scenario. -/
def exampleRoom : RoomState :=
  { id := "room1"
    name := "Rank C Match"
    password := none
    maxPlayers := 99
    isQuickMatch := true
    rank := "C"
    players := [
      { id := "h1", name := "P1", rank := "C", wsOpen := true, score := 0,
        linesCleared := 0, isAlive := true, field := emptyField },
      { id := "h2", name := "P2", rank := "C", wsOpen := true, score := 0,
        linesCleared := 0, isAlive := true, field := emptyField }]
    cpuPlayers := []
    gameStarted := false
    gameEnded := false
    matchTimer := true }

/-- `exampleRoom` after its game has ended. -/
def exampleEndedRoom : RoomState :=
  { exampleRoom with gameEnded := true, matchTimer := false }

/-- Witness for C7: starting the 2-human quick-match room yields exactly 80
members. -/
theorem startGame_backfill_witness :
    (startGame (fun _ => Difficulty.normal) (fun i => "cpu" ++ toString i)
        exampleRoom).1.players.length
      + (startGame (fun _ => Difficulty.normal) (fun i => "cpu" ++ toString i)
          exampleRoom).1.cpuPlayers.length = 80 :=
  (startGame_backfill exampleRoom (fun _ => Difficulty.normal)
    (fun i => "cpu" ++ toString i) rfl rfl).2.2 rfl rfl

/-- Witness for C10: restarting the ended example room flips it back to a
running, not-ended game. -/
theorem endedRoom_restartable_witness :
    (startGame (fun _ => Difficulty.easy) (fun _ => "cpu") exampleEndedRoom).1.gameStarted = true
    ∧ (startGame (fun _ => Difficulty.easy) (fun _ => "cpu") exampleEndedRoom).1.gameEnded
        = false :=
  ⟨(endedRoom_restartable exampleEndedRoom (fun _ => Difficulty.easy) (fun _ => "cpu")
      rfl rfl).1,
   (endedRoom_restartable exampleEndedRoom (fun _ => Difficulty.easy) (fun _ => "cpu")
      rfl rfl).2.1⟩


/-! ### `receiveAttack` (C1), `sendAttack` (C5) and disconnect (C9) -/

/-- A 20-row field whose top row is a distinctive marker row; all other rows
are empty. -/
def markedField : Field := List.replicate 10 "M" :: List.replicate 19 emptyRow

/-- C1 (code bug): `receiveAttack` `pop()`s the **bottom** row (index 19) and
then `push()`es the garbage line back at the bottom, although its own comment
says the *top* row is deleted. Each iteration therefore replaces the bottom
row: after `receiveAttack(2)` the top row survives, row 18 is untouched, and
only one garbage row (the second one) exists at row 19 — not the two bottom
garbage rows the claim describes. -/
theorem receiveAttack_replaces_bottom_row :
    (receiveAttack [4, 7] markedField).length = 20
    ∧ (receiveAttack [4, 7] markedField).headD [] = List.replicate 10 "M"
    ∧ (receiveAttack [4, 7] markedField).getD 18 [] = emptyRow
    ∧ (receiveAttack [4, 7] markedField).getD 19 [] = garbageRow 7
    ∧ receiveAttack [4, 7] markedField ≠ specReceiveGarbage [4, 7] markedField := by
  decide

/-- A mid-game quick-match room whose only living members are two bots:
the attacker `cpu1` and a second bot `cpu2`. `room.players` (humans) is
empty. -/
def botOnlyRoom : RoomState :=
  { id := "room2"
    name := "Rank C Match"
    password := none
    maxPlayers := 99
    isQuickMatch := true
    rank := "C"
    players := []
    cpuPlayers := [
      { id := "cpu1", name := "CPU-NORMAL", difficulty := Difficulty.normal, score := 0,
        linesCleared := 0, isAlive := true, running := true, bag := [], field := emptyField },
      { id := "cpu2", name := "CPU-HARD", difficulty := Difficulty.hard, score := 5,
        linesCleared := 1, isAlive := true, running := true, bag := [], field := emptyField }]
    gameStarted := true
    gameEnded := false
    matchTimer := false }

/-- C5 counterexample: in `botOnlyRoom` the claim's target population (all
living players, human and bot, except the attacker) is exactly `cpu2`, yet
`sendAttack` emits nothing at all — the code draws targets only from
`room.players`, which holds humans, so bots are never attacked. -/
theorem sendAttack_bots_never_targeted :
    sendAttackRoom "cpu1" 0 0 botOnlyRoom = none
    ∧ specClaimTargets "cpu1" botOnlyRoom
        = [{ id := "cpu2", name := "CPU-HARD", score := 5, isAlive := true, isCPU := true }] := by
  decide

/-- C5 (amended): any attack a bot emits carries `1`–`3` lines and goes to a
living *human* player with an open socket, chosen by a uniform index into the
living humans; when no human is alive, nothing is emitted. -/
theorem sendAttackRoom_spec (s : RoomState) (attackerId : String) (r1 r2 : Nat) :
    (∀ b, sendAttackRoom attackerId r1 r2 s = some b →
        ∃ p ∈ s.players, p.isAlive = true ∧ p.wsOpen = true
          ∧ b = Broadcast.attacked attackerId p.id (r1 % 3 + 1))
    ∧ (1 ≤ r1 % 3 + 1 ∧ r1 % 3 + 1 ≤ 3)
    ∧ (s.players.filter (·.isAlive) = [] → sendAttackRoom attackerId r1 r2 s = none) := by
  refine ⟨?_, ⟨Nat.le_add_left 1 _, by omega⟩, ?_⟩
  · intro b hb
    unfold sendAttackRoom at hb
    simp only at hb
    split at hb
    · exact absurd hb (by simp)
    · rename_i hne
      split at hb
      · rename_i hws
        have hlt : r2 % (s.players.filter (·.isAlive)).length
            < (s.players.filter (·.isAlive)).length := by
          apply Nat.mod_lt
          have : (s.players.filter (·.isAlive)) ≠ [] := by
            intro hnil
            rw [hnil] at hne
            simp at hne
          cases hfe : (s.players.filter (·.isAlive)) with
          | nil => exact absurd hfe this
          | cons a l => simp
        have hgetd : (s.players.filter (·.isAlive)).getD
            (r2 % (s.players.filter (·.isAlive)).length) dummyHuman
            = (s.players.filter (·.isAlive)).get
                ⟨r2 % (s.players.filter (·.isAlive)).length, hlt⟩ := by
          rw [List.getD_eq_getElem _ _ hlt]
          rfl
        rw [hgetd] at hb hws
        set target := (s.players.filter (·.isAlive)).get
          ⟨r2 % (s.players.filter (·.isAlive)).length, hlt⟩ with htgt
        have hmem : target ∈ s.players.filter (·.isAlive) := List.get_mem _ _ hlt
        have hmem2 := List.mem_filter.mp hmem
        refine ⟨target, hmem2.1, by simpa using hmem2.2, hws, ?_⟩
        cases hb
        rfl
      · exact absurd hb (by simp)
  · intro hempty
    unfold sendAttackRoom
    rw [hempty]
    rfl

/-- `botOnlyRoom` with one living, connected human `h1` added. -/
def attackRoom : RoomState :=
  { botOnlyRoom with players := [
      { id := "h1", name := "P1", rank := "C", wsOpen := true, score := 0,
        linesCleared := 0, isAlive := true, field := emptyField }] }

/-- Witness for the amended C5: with no living human nothing is emitted, and
with the single living human `h1` the emitted attack goes to `h1` with one
line. -/
theorem sendAttackRoom_spec_witness :
    sendAttackRoom "cpu2" 0 0 botOnlyRoom = none
    ∧ ∃ p ∈ attackRoom.players, p.isAlive = true ∧ p.wsOpen = true
        ∧ Broadcast.attacked "cpu1" "h1" 1 = Broadcast.attacked "cpu1" p.id (0 % 3 + 1) :=
  ⟨(sendAttackRoom_spec botOnlyRoom "cpu2" 0 0).2.2 rfl,
   (sendAttackRoom_spec attackRoom "cpu1" 0 0).1 (Broadcast.attacked "cpu1" "h1" 1) (by rfl)⟩

/-- A room mid-game with three living humans `p1`, `p2`, `p3`. -/
def threeRoom : RoomState :=
  { id := "room3"
    name := "Room R3"
    password := none
    maxPlayers := 99
    isQuickMatch := false
    rank := "C"
    players := [
      { id := "p1", name := "A", rank := "C", wsOpen := true, score := 50,
        linesCleared := 0, isAlive := true, field := emptyField },
      { id := "p2", name := "B", rank := "C", wsOpen := true, score := 900,
        linesCleared := 0, isAlive := true, field := emptyField },
      { id := "p3", name := "Cr", rank := "C", wsOpen := true, score := 10,
        linesCleared := 0, isAlive := true, field := emptyField }]
    cpuPlayers := []
    gameStarted := true
    gameEnded := false
    matchTimer := false }

/-- C9 counterexample: disconnecting `p1` mid-game *removes* the record
(no record with id `p1` remains, dead or alive), whereas an explicit
`gameOver` from `p1` keeps the record and marks it dead; the resulting room
states differ. -/
theorem disconnect_not_gameOver :
    ((disconnectRoom "p1" threeRoom).1.players.all (fun p => p.id != "p1")) = true
    ∧ ((handleGameOverRoom "p1" 0 threeRoom).1.players.any
        (fun p => p.id == "p1" && !p.isAlive)) = true
    ∧ (disconnectRoom "p1" threeRoom).1 ≠ (handleGameOverRoom "p1" 0 threeRoom).1 := by
  decide

/-- C9 (amended): a mid-game disconnect removes the player's record from the
room (it is not marked dead) and re-runs the end-of-game check: if at most
one member is left alive the game ends, otherwise it keeps running. -/
theorem disconnectRoom_spec (s : RoomState) (pid : String)
    (hstarted : s.gameStarted = true) (hnotended : s.gameEnded = false) :
    (∀ p ∈ (disconnectRoom pid s).1.players, p.id ≠ pid)
    ∧ (((getAllPlayers (removePlayerRoom pid s)).filter (·.isAlive)).length ≤ 1 →
        (disconnectRoom pid s).1.gameEnded = true)
    ∧ (1 < ((getAllPlayers (removePlayerRoom pid s)).filter (·.isAlive)).length →
        (disconnectRoom pid s).1.gameEnded = false) := by
  have hs1notended : (removePlayerRoom pid s).gameEnded = false := by
    simp [removePlayerRoom, hnotended]
  have hplayers1 : (removePlayerRoom pid s).players
      = s.players.filter (fun p => p.id ≠ pid) := by
    simp [removePlayerRoom]
  have hstep : (disconnectRoom pid s).1.players
        = (checkGameEnd (removePlayerRoom pid s)).1.players
      ∧ (disconnectRoom pid s).1.gameEnded
        = (checkGameEnd (removePlayerRoom pid s)).1.gameEnded := by
    unfold disconnectRoom removePlayerRoom
    constructor <;>
      simp [hstarted, apply_ite (fun st : RoomState => st.players),
        apply_ite (fun st : RoomState => st.gameEnded)]
  have hCp : (checkGameEnd (removePlayerRoom pid s)).1.players
      = (removePlayerRoom pid s).players := by
    unfold checkGameEnd
    rw [if_neg (by rw [hs1notended]; simp)]
    split
    · unfold endGame
      rw [if_neg (by rw [hs1notended]; simp)]
    · rfl
  refine ⟨?_, ?_, ?_⟩
  · intro p hp
    rw [hstep.1, hCp, hplayers1] at hp
    have := (List.mem_filter.mp hp).2
    simpa using this
  · intro hle
    rw [hstep.2]
    unfold checkGameEnd
    rw [if_neg (by rw [hs1notended]; simp), if_pos hle]
    unfold endGame
    rw [if_neg (by rw [hs1notended]; simp)]
  · intro hgt
    rw [hstep.2]
    unfold checkGameEnd
    rw [if_neg (by rw [hs1notended]; simp), if_neg (by omega)]
    exact hs1notended

/-- Witness for the amended C9: disconnecting `p1` from the three-player room
removes `p1` and, with two members still alive, the game does not end. -/
theorem disconnectRoom_spec_witness :
    (∀ p ∈ (disconnectRoom "p1" threeRoom).1.players, p.id ≠ "p1")
    ∧ (disconnectRoom "p1" threeRoom).1.gameEnded = false :=
  ⟨(disconnectRoom_spec threeRoom "p1" rfl rfl).1,
   (disconnectRoom_spec threeRoom "p1" rfl rfl).2.2 (by decide)⟩

end TetrisServer
